import Mathlib

/-!
Verification development for a small repository containing a three-state
one-dimensional cellular automaton simulator (three_state.py) and a
Metropolis-Hastings MCMC estimator (bayesian.py).

The Python code is shallowly embedded below.  Cell values and rule numbers
are modelled as integers (the Python code works with arbitrary-precision
ints); fallible operations (raising ValueError / KeyError) are modelled
with Except String.  The MCMC code, which works with real-valued samples,
is modelled over the reals with the random draws passed in explicitly as
streams.
-/

instance {ε α : Type} [DecidableEq ε] [DecidableEq α] : DecidableEq (Except ε α) := fun a b =>
  match a, b with
  | .ok x, .ok y =>
    if h : x = y then .isTrue (h ▸ rfl) else .isFalse (fun hh => h (Except.ok.inj hh))
  | .error x, .error y =>
    if h : x = y then .isTrue (h ▸ rfl) else .isFalse (fun hh => h (Except.error.inj hh))
  | .ok _, .error _ => .isFalse (fun hh => Except.noConfusion hh)
  | .error _, .ok _ => .isFalse (fun hh => Except.noConfusion hh)

namespace ThreeState

/-!
## Embedding of three_state.py
-/

/-- Least-significant-digit-first base-3 digits, as computed by repeated
division (the digit sequence underlying numpy base_repr at base 3).
The first argument is structural fuel; digits3L n n is the digit list of n.
For n = 0 the list is empty (numpy prints the single character 0 instead,
see base_repr3). -/
def digits3L : ℕ → ℕ → List ℕ
  | 0, _ => []
  | _ + 1, 0 => []
  | fuel + 1, n + 1 => ((n + 1) % 3) :: digits3L fuel ((n + 1) / 3)

/-- Model of np.base_repr(n, 3): most-significant-digit-first base-3
representation of n, with 0 rendered as the single digit 0. -/
def base_repr3 (n : ℕ) : List ℕ :=
  if n = 0 then [0] else (digits3L n n).reverse

/-- Model of the expression np.base_repr(rulen, 3, padding = 9 - len(...)):
the base-3 representation of the rule number, zero-padded on the left
to 9 digits (ThreeStateCA.lookup_table, lines 145-147). -/
def rule_ternary (r : ℕ) : List ℕ :=
  List.replicate (9 - (base_repr3 r).length) 0 ++ base_repr3 r

/-- The i-th least significant base-3 digit of r. -/
def dgt (r i : ℕ) : ℕ := r / 3 ^ i % 3

/-- The fixed neighborhood enumeration of ThreeStateCA.lookup_table
(lines 130-140): all (left, self) pairs, left component slowest. -/
def neighborhoods : List (ℤ × ℤ) :=
  [(0, 0), (0, 1), (0, 2), (1, 0), (1, 1), (1, 2), (2, 0), (2, 1), (2, 2)]

/-- Model of dict(zip(neighborhoods, map(int, reversed(rule_ternary))))
(line 154): the lookup table as an association list, in insertion order. -/
def lookup_table_of (r : ℕ) : List ((ℤ × ℤ) × ℤ) :=
  neighborhoods.zip (((rule_ternary r).reverse).map Int.ofNat)

/-- Model of Python dict lookup table[neighborhood]: the value stored at
the key, or a KeyError if the key is absent. -/
def dict_get (t : List ((ℤ × ℤ) × ℤ)) (k : ℤ × ℤ) : Except String ℤ :=
  match t.find? (fun p => p.1 == k) with
  | some p => .ok p.2
  | none => .error "KeyError"

/-- The state of a ThreeStateCA object: the fields set by __init__
(lines 84-92).  rulen is the stored rule number (unvalidated at
construction time, exactly as in the source). -/
structure Engine where
  rulen : ℤ
  initial : List ℤ
  spacetime : List (List ℤ)
  current_configuration : List ℤ
  _length : ℕ
  deriving DecidableEq, Repr

/-- Model of ThreeStateCA.__init__ (lines 49-92): every element of the
initial condition must be 0, 1 or 2 (ValueError otherwise); the rule
number is stored without any validation. -/
def mk (rule_number : ℤ) (initial_condition : List ℤ) : Except String Engine :=
  if initial_condition.all (fun i => i == 0 || i == 1 || i == 2) then
    .ok { rulen := rule_number
          initial := initial_condition
          spacetime := [initial_condition]
          current_configuration := initial_condition
          _length := initial_condition.length }
  else
    .error "initial condition must be a list of 0s, 1s and 2s"

/-- Model of the method ThreeStateCA.lookup_table (lines 99-154): the rule
number is validated here (not at construction), then the table is built.
The isinstance int check is not representable over the mathematical
integers; rulen ranges over all of them. -/
def lookup_table (e : Engine) : Except String (List ((ℤ × ℤ) × ℤ)) :=
  if e.rulen < 0 ∨ e.rulen > 3 ^ 9 - 1 then
    .error "rule_number must be an int between 0 and 3**9-1, inclusive"
  else
    .ok (lookup_table_of e.rulen.toNat)

/-- Python list indexing l[i] for the in-bounds indexes used by evolve
(which only ever reads l[i] for -1 <= i < len(l)): a negative index counts
from the end of the list. -/
def pyget (l : List ℤ) (i : ℤ) : ℤ :=
  if 0 ≤ i then l.getD i.toNat 0 else l.getD (i + l.length).toNat 0

/-- The neighborhood tuple read at cell i in evolve (lines 186-189):
(current_configuration[i - 1], current_configuration[i]). -/
def nbhd (cur : List ℤ) (i : ℕ) : ℤ × ℤ :=
  (pyget cur ((i : ℤ) - 1), pyget cur i)

/-- One iteration of the outer loop of ThreeStateCA.evolve (lines
180-194): build the new configuration cell by cell (rebuilding and
revalidating the lookup table at each cell, as the source does), then
replace the current configuration and append to the spacetime history. -/
def evolve_step (e : Engine) : Except String Engine := do
  let newc ← (List.range e._length).mapM (fun i => do
    let tb ← lookup_table e
    dict_get tb (nbhd e.current_configuration i))
  pure { e with current_configuration := newc, spacetime := e.spacetime ++ [newc] }

/-- The outer loop of ThreeStateCA.evolve: time_steps iterations. -/
def evolve_loop : ℕ → Engine → Except String Engine
  | 0, e => .ok e
  | n + 1, e =>
    match evolve_step e with
    | .ok e₁ => evolve_loop n e₁
    | .error s => .error s

/-- Model of the method ThreeStateCA.evolve (lines 156-194).  The
time_steps argument is modelled as a rational so that non-integer inputs
such as 2.7 are representable.  The source first raises for negative
input (line 169), then converts via int(...) (line 176); for a
non-negative number int() truncates (it only raises for unparsable
strings), so a non-negative rational runs for floor(time_steps) steps. -/
def evolve (e : Engine) (time_steps : ℚ) : Except String Engine :=
  if time_steps < 0 then .error "time_steps must be a non-negative integer"
  else evolve_loop (Int.toNat ⌊time_steps⌋) e

/-- A sequence of consecutive evolve calls with natural-number arguments,
stopping at the first failure. -/
def evolve_calls : List ℕ → Engine → Except String Engine
  | [], e => .ok e
  | t :: ts, e =>
    match evolve e (t : ℚ) with
    | .ok e₁ => evolve_calls ts e₁
    | .error s => .error s

/-- A configuration is valid when every cell is 0, 1 or 2. -/
def valid_config (l : List ℤ) : Prop := ∀ x ∈ l, x = 0 ∨ x = 1 ∨ x = 2

/-- The configuration produced by one synchronous step: cell i of the new
configuration is the rule digit indexed by the neighborhood
(cur[i - 1], cur[i]). -/
def next_config (r : ℕ) (cur : List ℤ) : List ℤ :=
  (List.range cur.length).map fun (i : ℕ) =>
    ((dgt r (3 * (pyget cur ((i : ℤ) - 1)).toNat + (pyget cur (i : ℤ)).toNat) : ℕ) : ℤ)

instance valid_config_decidable (l : List ℤ) : Decidable (valid_config l) := by
  unfold valid_config
  infer_instance

/-- The well-formedness invariant maintained by evolution: the rule number
is in range, every cell is a valid state, and the cached length matches
the current configuration. -/
def engine_inv (e : Engine) : Prop :=
  0 ≤ e.rulen ∧ e.rulen ≤ 3 ^ 9 - 1 ∧ valid_config e.current_configuration ∧
    e._length = e.current_configuration.length


end ThreeState

namespace Bayesian

/-!
## Embedding of bayesian.py

The samples are real numbers; the two random sources used by the chain
(np.random.randn for proposals and np.random.uniform for acceptance) are
passed in explicitly as streams indexed by the iteration number.
-/

/-- Model of post_a_x (bayesian.py lines 29-48): the unnormalized
posterior (log(a) / (2 pi))^(n/2) * a^(-sumsq/2), with real powers. -/
noncomputable def post_a_x (a_value sq_sum_data : ℝ) (length : ℕ) : ℝ :=
  Real.rpow (Real.log a_value / (2 * Real.pi)) ((length : ℝ) / 2) *
    Real.rpow a_value (-sq_sum_data / 2)

/-- One iteration of the loop of metropolis_hastings (lines 75-104):
propose a_new = randn + a_old; reject outright if a_new <= 1; accept if
the posterior ratio is at least 1; otherwise accept when the uniform draw
is below the ratio. -/
noncomputable def mh_step (sq : ℝ) (len : ℕ) (a_old noise unif : ℝ) : ℝ :=
  let a_new := noise + a_old
  if a_new ≤ 1 then a_old
  else if post_a_x a_new sq len / post_a_x a_old sq len ≥ 1 then a_new
  else if unif < post_a_x a_new sq len / post_a_x a_old sq len then a_new
  else a_old

/-- The chain recursion: k is the iteration index into the random streams,
the second argument the number of iterations remaining.  Each iteration
appends the (possibly unchanged) current value to the output. -/
noncomputable def mh_chain (sq : ℝ) (len : ℕ) (noise unif : ℕ → ℝ) :
    ℕ → ℕ → ℝ → List ℝ
  | _, 0, _ => []
  | k, n + 1, a_old =>
    mh_step sq len a_old (noise k) (unif k) ::
      mh_chain sq len noise unif (k + 1) n (mh_step sq len a_old (noise k) (unif k))

/-- Model of metropolis_hastings (lines 51-106): precompute the sum of
squares and the data length, then run the chain for the requested number
of iterations starting from initial_a. -/
noncomputable def metropolis_hastings (iterations : ℕ) (initial_a : ℝ) (data : List ℝ)
    (noise unif : ℕ → ℝ) : List ℝ :=
  mh_chain ((data.map fun x => x * x).sum) data.length noise unif 0 iterations initial_a

/-- The first arguments of the evaluations of post_a_x made by one loop
iteration, in evaluation order: none when the candidate is rejected
outright; numerator then denominator of the ratio on line 87; and the
same two again for the re-evaluated ratio on lines 95-96 when the first
comparison falls through. -/
noncomputable def mh_step_calls (sq : ℝ) (len : ℕ) (a_old noise : ℝ) : List ℝ :=
  let a_new := noise + a_old
  if a_new ≤ 1 then []
  else if post_a_x a_new sq len / post_a_x a_old sq len ≥ 1 then [a_new, a_old]
  else [a_new, a_old, a_new, a_old]

/-- All first arguments passed to post_a_x across a whole chain run. -/
noncomputable def mh_calls (sq : ℝ) (len : ℕ) (noise unif : ℕ → ℝ) :
    ℕ → ℕ → ℝ → List ℝ
  | _, 0, _ => []
  | k, n + 1, a_old =>
    mh_step_calls sq len a_old (noise k) ++
      mh_calls sq len noise unif (k + 1) n (mh_step sq len a_old (noise k) (unif k))

/-- All first arguments passed to post_a_x during metropolis_hastings. -/
noncomputable def metropolis_hastings_calls (iterations : ℕ) (initial_a : ℝ)
    (data : List ℝ) (noise unif : ℕ → ℝ) : List ℝ :=
  mh_calls ((data.map fun x => x * x).sum) data.length noise unif 0 iterations initial_a

end Bayesian

namespace ThreeState

lemma digits3L_zero (f : ℕ) : digits3L f 0 = [] := by cases f <;> rfl

lemma digits3L_fuel (f₁ f₂ n : ℕ) (h₁ : n ≤ f₁) (h₂ : n ≤ f₂) :
    digits3L f₁ n = digits3L f₂ n := by
  induction f₁ generalizing n f₂ with
  | zero =>
    interval_cases n
    rw [digits3L_zero, digits3L_zero]
  | succ k ih =>
    cases n with
    | zero => rw [digits3L_zero, digits3L_zero]
    | succ m =>
      cases f₂ with
      | zero => omega
      | succ j =>
        show ((m + 1) % 3) :: digits3L k ((m + 1) / 3) =
          ((m + 1) % 3) :: digits3L j ((m + 1) / 3)
        rw [ih j ((m + 1) / 3) (by omega) (by omega)]

lemma digits3L_getD (i n : ℕ) : (digits3L n n).getD i 0 = n / 3 ^ i % 3 := by
  induction i generalizing n with
  | zero =>
    cases n with
    | zero => simp [digits3L]
    | succ m => simp [digits3L]
  | succ i ih =>
    cases n with
    | zero => simp [digits3L]
    | succ m =>
      have h1 : digits3L (m + 1) (m + 1) = ((m + 1) % 3) :: digits3L m ((m + 1) / 3) := rfl
      have h2 : digits3L m ((m + 1) / 3) = digits3L ((m + 1) / 3) ((m + 1) / 3) :=
        digits3L_fuel _ _ _ (by omega) le_rfl
      rw [h1, List.getD_cons_succ, h2, ih, Nat.div_div_eq_div_mul,
        Nat.mul_comm 3 (3 ^ i), ← pow_succ]

lemma digits3L_len_le (k n : ℕ) (h : n < 3 ^ k) : (digits3L n n).length ≤ k := by
  induction k generalizing n with
  | zero =>
    interval_cases n
    simp [digits3L]
  | succ k ih =>
    cases n with
    | zero => simp [digits3L]
    | succ m =>
      show (((m + 1) % 3) :: digits3L m ((m + 1) / 3)).length ≤ k + 1
      rw [List.length_cons,
        digits3L_fuel m ((m + 1) / 3) ((m + 1) / 3) (by omega) le_rfl]
      have h3 : (m + 1) / 3 < 3 ^ k := by
        have h4 := pow_succ 3 k
        omega
      exact Nat.succ_le_succ (ih _ h3)

lemma lt_pow_digits3L_len (n : ℕ) : n < 3 ^ (digits3L n n).length := by
  suffices h : ∀ f n, n ≤ f → n < 3 ^ (digits3L n n).length from h n n le_rfl
  intro f
  induction f with
  | zero =>
    intro n hn
    interval_cases n
    simp [digits3L]
  | succ k ih =>
    intro n hn
    cases n with
    | zero => simp [digits3L]
    | succ m =>
      show m + 1 < 3 ^ ((((m + 1) % 3) :: digits3L m ((m + 1) / 3)).length)
      rw [List.length_cons,
        digits3L_fuel m ((m + 1) / 3) ((m + 1) / 3) (by omega) le_rfl]
      have h3 := ih ((m + 1) / 3) (by omega)
      have h4 := pow_succ 3 (digits3L ((m + 1) / 3) ((m + 1) / 3)).length
      omega

lemma base_repr3_len_le (r : ℕ) (h : r < 3 ^ 9) : (base_repr3 r).length ≤ 9 := by
  unfold base_repr3
  split
  · simp
  · rw [List.length_reverse]
    exact digits3L_len_le 9 r h

lemma rule_ternary_length (r : ℕ) (h : r < 3 ^ 9) : (rule_ternary r).length = 9 := by
  unfold rule_ternary
  rw [List.length_append, List.length_replicate]
  have h1 := base_repr3_len_le r h
  omega

lemma getD_replicate_zero (k j : ℕ) : (List.replicate k (0 : ℕ)).getD j 0 = 0 := by
  induction k generalizing j with
  | zero => simp
  | succ k ih =>
    cases j with
    | zero => simp [List.replicate]
    | succ j => simp [List.replicate, ih j]

lemma rule_ternary_rev_getD (r : ℕ) (h : r < 3 ^ 9) (i : ℕ) :
    (rule_ternary r).reverse.getD i 0 = dgt r i := by
  unfold rule_ternary dgt
  rw [List.reverse_append, List.reverse_replicate]
  by_cases h0 : r = 0
  · subst h0
    show (([0] : List ℕ) ++ List.replicate (9 - 1) 0).getD i 0 = 0 / 3 ^ i % 3
    rw [Nat.zero_div, Nat.zero_mod]
    cases i with
    | zero => rfl
    | succ j =>
      rw [show (([0] : List ℕ) ++ List.replicate (9 - 1) 0) = List.replicate 9 0 from rfl]
      exact getD_replicate_zero 9 (j + 1)
  · have hb : (base_repr3 r).reverse = digits3L r r := by
      unfold base_repr3
      rw [if_neg h0, List.reverse_reverse]
    rw [hb]
    by_cases hib : i < (digits3L r r).length
    · rw [List.getD_append _ _ _ _ hib]
      exact digits3L_getD i r
    · push_neg at hib
      rw [List.getD_append_right _ _ _ _ hib, getD_replicate_zero,
        Nat.div_eq_of_lt (lt_of_lt_of_le (lt_pow_digits3L_len r)
          (Nat.pow_le_pow_right (by norm_num) hib))]

lemma rule_ternary_rev_eq (r : ℕ) (h : r < 3 ^ 9) :
    (rule_ternary r).reverse =
      [dgt r 0, dgt r 1, dgt r 2, dgt r 3, dgt r 4, dgt r 5, dgt r 6, dgt r 7, dgt r 8] := by
  have hlen : (rule_ternary r).reverse.length = 9 := by
    rw [List.length_reverse]
    exact rule_ternary_length r h
  apply List.ext_getElem
  · simp [hlen]
  · intro i h₁ h₂
    have h9 : i < 9 := by omega
    rw [← List.getD_eq_getElem _ 0 h₁, rule_ternary_rev_getD r h i]
    interval_cases i <;> rfl

lemma lookup_table_of_eq (r : ℕ) (h : r < 3 ^ 9) :
    lookup_table_of r =
      [((0, 0), (dgt r 0 : ℤ)), ((0, 1), (dgt r 1 : ℤ)), ((0, 2), (dgt r 2 : ℤ)),
       ((1, 0), (dgt r 3 : ℤ)), ((1, 1), (dgt r 4 : ℤ)), ((1, 2), (dgt r 5 : ℤ)),
       ((2, 0), (dgt r 6 : ℤ)), ((2, 1), (dgt r 7 : ℤ)), ((2, 2), (dgt r 8 : ℤ))] := by
  unfold lookup_table_of
  rw [rule_ternary_rev_eq r h]
  rfl

lemma dict_get_lookup (r : ℕ) (h : r < 3 ^ 9) (a b : ℤ)
    (ha : a = 0 ∨ a = 1 ∨ a = 2) (hb : b = 0 ∨ b = 1 ∨ b = 2) :
    dict_get (lookup_table_of r) (a, b) = .ok ((dgt r (3 * a.toNat + b.toNat) : ℕ) : ℤ) := by
  rw [lookup_table_of_eq r h]
  rcases ha with rfl | rfl | rfl <;> rcases hb with rfl | rfl | rfl <;> rfl

lemma dgt_lt (r i : ℕ) : dgt r i < 3 := Nat.mod_lt _ (by norm_num)

lemma mapM_ok {α β : Type} (f : α → Except String β) (g : α → β) (l : List α)
    (h : ∀ a ∈ l, f a = .ok (g a)) : l.mapM f = .ok (l.map g) := by
  induction l with
  | nil => rfl
  | cons x xs ih =>
    rw [List.mapM_cons, h x (by simp), ih (fun a ha => h a (by simp [ha]))]
    rfl

lemma lookup_table_ok (e : Engine) (hr0 : 0 ≤ e.rulen) (hr1 : e.rulen ≤ 3 ^ 9 - 1) :
    lookup_table e = .ok (lookup_table_of e.rulen.toNat) := by
  unfold lookup_table
  rw [if_neg]
  push_neg
  exact ⟨hr0, hr1⟩

lemma rulen_toNat_lt (e : Engine) (hr0 : 0 ≤ e.rulen) (hr1 : e.rulen ≤ 3 ^ 9 - 1) :
    e.rulen.toNat < 3 ^ 9 := by omega

lemma getD_mem (l : List ℤ) (i : ℕ) (h : i < l.length) : l.getD i 0 ∈ l := by
  rw [List.getD_eq_getElem _ 0 h]
  exact List.getElem_mem h

lemma pyget_mem (l : List ℤ) (i : ℕ) (h : i < l.length) :
    pyget l ((i : ℤ) - 1) ∈ l ∧ pyget l i ∈ l := by
  constructor
  · unfold pyget
    cases i with
    | zero =>
      rw [if_neg (by norm_num)]
      apply getD_mem
      omega
    | succ j =>
      rw [if_pos (by omega)]
      apply getD_mem
      omega
  · unfold pyget
    rw [if_pos (Int.natCast_nonneg i)]
    apply getD_mem
    omega

/-- The per-cell body of the inner loop of evolve succeeds on a valid
configuration and produces the digit selected by the neighborhood. -/
lemma cell_ok (e : Engine) (hr0 : 0 ≤ e.rulen) (hr1 : e.rulen ≤ 3 ^ 9 - 1)
    (hv : valid_config e.current_configuration) (i : ℕ)
    (hi : i < e.current_configuration.length) :
    (do
      let tb ← lookup_table e
      dict_get tb (nbhd e.current_configuration i)) =
    .ok ((dgt e.rulen.toNat
        (3 * (pyget e.current_configuration ((i : ℤ) - 1)).toNat +
          (pyget e.current_configuration i).toNat) : ℕ) : ℤ) := by
  have hmem := pyget_mem e.current_configuration i hi
  have hcall := dict_get_lookup e.rulen.toNat (rulen_toNat_lt e hr0 hr1)
    (pyget e.current_configuration ((i : ℤ) - 1)) (pyget e.current_configuration i)
    (hv _ hmem.1) (hv _ hmem.2)
  show Except.bind (lookup_table e) _ = _
  rw [lookup_table_ok e hr0 hr1]
  exact hcall

/-- One evolve step on a well-formed engine: it succeeds and replaces the
configuration with next_config while appending it to the history. -/
lemma evolve_step_ok (e : Engine) (hr0 : 0 ≤ e.rulen) (hr1 : e.rulen ≤ 3 ^ 9 - 1)
    (hv : valid_config e.current_configuration)
    (hL : e._length = e.current_configuration.length) :
    evolve_step e =
      .ok { e with
        current_configuration := next_config e.rulen.toNat e.current_configuration,
        spacetime := e.spacetime ++ [next_config e.rulen.toNat e.current_configuration] } := by
  have hm := mapM_ok
    (fun i => do
      let tb ← lookup_table e
      dict_get tb (nbhd e.current_configuration i))
    (fun (i : ℕ) =>
      ((dgt e.rulen.toNat
        (3 * (pyget e.current_configuration ((i : ℤ) - 1)).toNat +
          (pyget e.current_configuration i).toNat) : ℕ) : ℤ))
    (List.range e.current_configuration.length)
    (fun i hi => cell_ok e hr0 hr1 hv i (by simpa using hi))
  unfold evolve_step next_config
  rw [hL, hm]
  rfl

lemma next_config_length (r : ℕ) (cur : List ℤ) : (next_config r cur).length = cur.length := by
  simp [next_config]

lemma next_config_valid (r : ℕ) (cur : List ℤ) : valid_config (next_config r cur) := by
  intro x hx
  unfold next_config at hx
  rw [List.mem_map] at hx
  obtain ⟨i, _, hix⟩ := hx
  have h3 := dgt_lt r (3 * (pyget cur ((i : ℤ) - 1)).toNat + (pyget cur i).toNat)
  omega

lemma evolve_step_inv (e : Engine) (h : engine_inv e) :
    ∃ e₁, evolve_step e = .ok e₁ ∧ engine_inv e₁ ∧
      e₁.current_configuration = next_config e.rulen.toNat e.current_configuration ∧
      e₁.spacetime = e.spacetime ++ [e₁.current_configuration] ∧
      e₁.rulen = e.rulen ∧ e₁.initial = e.initial ∧ e₁._length = e._length := by
  obtain ⟨h0, h1, h2, h3⟩ := h
  refine ⟨_, evolve_step_ok e h0 h1 h2 h3, ?_, rfl, rfl, rfl, rfl, rfl⟩
  exact ⟨h0, h1, next_config_valid _ _, by
    rw [next_config_length]
    exact h3⟩

lemma evolve_loop_inv (n : ℕ) (e : Engine) (h : engine_inv e) :
    ∃ e₁, evolve_loop n e = .ok e₁ ∧ engine_inv e₁ := by
  induction n generalizing e with
  | zero => exact ⟨e, rfl, h⟩
  | succ k ih =>
    obtain ⟨e₁, hs, hinv, -⟩ := evolve_step_inv e h
    obtain ⟨e₂, hl, hinv₂⟩ := ih e₁ hinv
    refine ⟨e₂, ?_, hinv₂⟩
    unfold evolve_loop
    rw [hs]
    exact hl

/-- Whatever engine evolve_step succeeds on, the result differs from the
input only in the current configuration and an appended history entry. -/
lemma evolve_step_shape (e e₁ : Engine) (h : evolve_step e = .ok e₁) :
    e₁.spacetime = e.spacetime ++ [e₁.current_configuration] ∧
      e₁.rulen = e.rulen ∧ e₁.initial = e.initial ∧ e₁._length = e._length := by
  unfold evolve_step at h
  cases hm : (List.range e._length).mapM (fun i => do
      let tb ← lookup_table e
      dict_get tb (nbhd e.current_configuration i)) with
  | ok newc =>
    rw [show (do
        let newc ← (List.range e._length).mapM (fun i => do
          let tb ← lookup_table e
          dict_get tb (nbhd e.current_configuration i))
        pure { e with current_configuration := newc, spacetime := e.spacetime ++ [newc] } :
          Except String Engine) =
        Except.bind ((List.range e._length).mapM (fun i => do
          let tb ← lookup_table e
          dict_get tb (nbhd e.current_configuration i)))
          (fun newc => pure { e with
            current_configuration := newc, spacetime := e.spacetime ++ [newc] }) from rfl,
      hm] at h
    cases h
    exact ⟨rfl, rfl, rfl, rfl⟩
  | error s =>
    rw [show (do
        let newc ← (List.range e._length).mapM (fun i => do
          let tb ← lookup_table e
          dict_get tb (nbhd e.current_configuration i))
        pure { e with current_configuration := newc, spacetime := e.spacetime ++ [newc] } :
          Except String Engine) =
        Except.bind ((List.range e._length).mapM (fun i => do
          let tb ← lookup_table e
          dict_get tb (nbhd e.current_configuration i)))
          (fun newc => pure { e with
            current_configuration := newc, spacetime := e.spacetime ++ [newc] }) from rfl,
      hm] at h
    cases h

lemma evolve_loop_spacetime (n : ℕ) (e e₁ : Engine) (h : evolve_loop n e = .ok e₁) :
    ∃ rest : List (List ℤ), e₁.spacetime = e.spacetime ++ rest ∧ rest.length = n := by
  induction n generalizing e with
  | zero =>
    cases h
    exact ⟨[], by simp, rfl⟩
  | succ k ih =>
    unfold evolve_loop at h
    cases hs : evolve_step e with
    | ok e₂ =>
      rw [hs] at h
      obtain ⟨rest, hrest, hlen⟩ := ih e₂ h
      obtain ⟨hshape, -⟩ := evolve_step_shape e e₂ hs
      exact ⟨[e₂.current_configuration] ++ rest, by rw [hrest, hshape, List.append_assoc],
        by simp [hlen]⟩
    | error s => rw [hs] at h; cases h

lemma evolve_loop_last (n : ℕ) (e e₁ : Engine)
    (hgood : e.spacetime.getLast? = some e.current_configuration)
    (h : evolve_loop n e = .ok e₁) :
    e₁.spacetime.getLast? = some e₁.current_configuration := by
  induction n generalizing e with
  | zero =>
    cases h
    exact hgood
  | succ k ih =>
    unfold evolve_loop at h
    cases hs : evolve_step e with
    | ok e₂ =>
      rw [hs] at h
      obtain ⟨hshape, -⟩ := evolve_step_shape e e₂ hs
      exact ih e₂ (by rw [hshape]; exact List.getLast?_concat _) h
    | error s => rw [hs] at h; cases h

lemma evolve_loop_succ (n : ℕ) (e : Engine) :
    evolve_loop (n + 1) e =
      match evolve_step e with
      | .ok e₁ => evolve_loop n e₁
      | .error s => .error s := rfl

/-- Step additivity of the evolution loop. -/
lemma evolve_loop_add (a b : ℕ) (e : Engine) :
    evolve_loop (a + b) e =
      match evolve_loop a e with
      | .ok e₁ => evolve_loop b e₁
      | .error s => .error s := by
  induction a generalizing e with
  | zero =>
    rw [Nat.zero_add]
    rfl
  | succ k ih =>
    rw [show k + 1 + b = (k + b) + 1 from by omega, evolve_loop_succ, evolve_loop_succ]
    cases hs : evolve_step e with
    | ok e₁ => exact ih e₁
    | error s => rfl

/-- The evolve method at a natural-number argument runs exactly that many
loop iterations (the argument passes the negativity check and int()
conversion unchanged). -/
lemma evolve_natCast (e : Engine) (t : ℕ) : evolve e (t : ℚ) = evolve_loop t e := by
  unfold evolve
  rw [if_neg (not_lt.mpr (by exact_mod_cast Nat.zero_le t)), Int.floor_natCast]
  simp

lemma evolve_calls_eq_loop (ts : List ℕ) (e : Engine) :
    evolve_calls ts e = evolve_loop ts.sum e := by
  induction ts generalizing e with
  | nil => rfl
  | cons t ts ih =>
    unfold evolve_calls
    rw [evolve_natCast, List.sum_cons, evolve_loop_add t ts.sum e]
    cases hs : evolve_loop t e with
    | ok e₁ => exact ih e₁
    | error s => rfl

/-- Inversion for the constructor: a successful construction yields exactly
the record the source builds, and every element of the initial condition
is a valid state. -/
lemma mk_ok (r : ℤ) (init : List ℤ) (e : Engine) (h : mk r init = .ok e) :
    e = ⟨r, init, [init], init, init.length⟩ ∧ valid_config init := by
  unfold mk at h
  by_cases hc : init.all (fun i => i == 0 || i == 1 || i == 2)
  · rw [if_pos hc] at h
    cases h
    refine ⟨rfl, ?_⟩
    intro x hx
    have h2 := List.all_eq_true.mp hc x hx
    simp at h2
    omega
  · rw [if_neg hc] at h
    cases h

lemma mk_valid (r : ℤ) (init : List ℤ) (hv : valid_config init) :
    mk r init = .ok ⟨r, init, [init], init, init.length⟩ := by
  unfold mk
  rw [if_pos]
  rw [List.all_eq_true]
  intro x hx
  have h2 := hv x hx
  simp
  omega

/-- With an empty configuration the inner loop body never runs: the step
appends an empty configuration and cannot fail (in particular the lookup
table, and hence the rule validation, is never consulted). -/
lemma evolve_loop_empty (t : ℕ) (e : Engine) (h0 : e._length = 0)
    (h1 : e.current_configuration = []) :
    evolve_loop t e = .ok { e with
      current_configuration := e.current_configuration,
      spacetime := e.spacetime ++ List.replicate t [] } := by
  induction t generalizing e with
  | zero =>
    show Except.ok e = _
    rw [List.replicate_zero, List.append_nil]
  | succ k ih =>
    have hs : evolve_step e =
        .ok { e with current_configuration := [], spacetime := e.spacetime ++ [[]] } := by
      unfold evolve_step
      rw [h0]
      rfl
    rw [evolve_loop_succ, hs]
    show evolve_loop k { e with current_configuration := [], spacetime := e.spacetime ++ [[]] } = _
    rw [ih { e with current_configuration := [], spacetime := e.spacetime ++ [[]] } h0 rfl]
    simp [h1, List.replicate_succ]

lemma pyget_natCast (cur : List ℤ) (i : ℕ) : pyget cur (i : ℤ) = cur.getD i 0 := by
  unfold pyget
  rw [if_pos (Int.natCast_nonneg i), Int.toNat_natCast]

/-- The left-neighbor read current_configuration[i - 1], which uses a
Python negative index when i = 0, is exactly the circular index
(i - 1) mod L. -/
lemma pyget_left_eq_emod (cur : List ℤ) (L i : ℕ) (hLc : cur.length = L) (hi : i < L) :
    pyget cur ((i : ℤ) - 1) = cur.getD ((((i : ℤ) - 1) % (L : ℤ)).toNat) 0 := by
  cases i with
  | zero =>
    have h3 : (((0 : ℕ) : ℤ) - 1) % (L : ℤ) = (L : ℤ) - 1 := by
      have h4 := Int.add_mul_emod_self_left (a := (L : ℤ) - 1) (b := (L : ℤ)) (c := -1)
      rw [show (L : ℤ) - 1 + L * -1 = ((0 : ℕ) : ℤ) - 1 from by push_cast; ring] at h4
      rw [h4]
      exact Int.emod_eq_of_lt (by omega) (by omega)
    unfold pyget
    rw [if_neg (by norm_num), h3, hLc]
    congr 1
  | succ j =>
    have h6 : (((j + 1 : ℕ) : ℤ) - 1) % (L : ℤ) = (j : ℤ) := by
      rw [show ((j + 1 : ℕ) : ℤ) - 1 = (j : ℤ) from by push_cast; ring]
      exact Int.emod_eq_of_lt (Int.natCast_nonneg j) (by exact_mod_cast (show j < L by omega))
    unfold pyget
    rw [h6, show ((j + 1 : ℕ) : ℤ) - 1 = (j : ℤ) from by push_cast; ring,
      if_pos (Int.natCast_nonneg j)]

lemma next_config_getD (r : ℕ) (cur : List ℤ) (i : ℕ) (hi : i < cur.length) :
    (next_config r cur).getD i 0 =
      ((dgt r (3 * (pyget cur ((i : ℤ) - 1)).toNat + (pyget cur (i : ℤ)).toNat) : ℕ) : ℤ) := by
  unfold next_config
  rw [List.getD_eq_getElem _ _ (by simpa using hi)]
  simp

end ThreeState

namespace Bayesian

lemma one_lt_mh_step (sq : ℝ) (len : ℕ) (a_old noise unif : ℝ) (h : 1 < a_old) :
    1 < mh_step sq len a_old noise unif := by
  unfold mh_step
  dsimp only
  split_ifs with h1 h2 h3
  · exact h
  · push_neg at h1
    exact h1
  · push_neg at h1
    exact h1
  · exact h

lemma mh_chain_length (sq : ℝ) (len : ℕ) (noise unif : ℕ → ℝ) (k n : ℕ) (a : ℝ) :
    (mh_chain sq len noise unif k n a).length = n := by
  induction n generalizing k a with
  | zero => rfl
  | succ m ih =>
    show (_ :: mh_chain sq len noise unif (k + 1) m _).length = m + 1
    rw [List.length_cons, ih]

lemma mh_chain_gt_one (sq : ℝ) (len : ℕ) (noise unif : ℕ → ℝ) (k n : ℕ) (a : ℝ)
    (h : 1 < a) : ∀ x ∈ mh_chain sq len noise unif k n a, 1 < x := by
  induction n generalizing k a with
  | zero => intro x hx; cases hx
  | succ m ih =>
    intro x hx
    rw [show mh_chain sq len noise unif k (m + 1) a =
      mh_step sq len a (noise k) (unif k) ::
        mh_chain sq len noise unif (k + 1) m (mh_step sq len a (noise k) (unif k)) from rfl,
      List.mem_cons] at hx
    rcases hx with rfl | hx
    · exact one_lt_mh_step sq len a (noise k) (unif k) h
    · exact ih (k + 1) _ (one_lt_mh_step sq len a (noise k) (unif k) h) x hx

lemma mh_step_calls_gt_one (sq : ℝ) (len : ℕ) (a_old noise : ℝ) (h : 1 < a_old) :
    ∀ x ∈ mh_step_calls sq len a_old noise, 1 < x := by
  intro x hx
  unfold mh_step_calls at hx
  dsimp only at hx
  split_ifs at hx with h1 h2
  · cases hx
  · push_neg at h1
    rcases List.mem_pair.mp hx with rfl | rfl
    · exact h1
    · exact h
  · push_neg at h1
    simp only [List.mem_cons, List.not_mem_nil, or_false] at hx
    rcases hx with rfl | rfl | rfl | rfl
    · exact h1
    · exact h
    · exact h1
    · exact h

lemma mh_calls_gt_one (sq : ℝ) (len : ℕ) (noise unif : ℕ → ℝ) (k n : ℕ) (a : ℝ)
    (h : 1 < a) : ∀ x ∈ mh_calls sq len noise unif k n a, 1 < x := by
  induction n generalizing k a with
  | zero => intro x hx; cases hx
  | succ m ih =>
    intro x hx
    rw [show mh_calls sq len noise unif k (m + 1) a =
      mh_step_calls sq len a (noise k) ++
        mh_calls sq len noise unif (k + 1) m (mh_step sq len a (noise k) (unif k)) from rfl,
      List.mem_append] at hx
    rcases hx with hx | hx
    · exact mh_step_calls_gt_one sq len a (noise k) h x hx
    · exact ih (k + 1) _ (one_lt_mh_step sq len a (noise k) (unif k) h) x hx

end Bayesian

namespace ThreeState

lemma evolve_loop_add_ok (a b : ℕ) (e e₁ : Engine) (h : evolve_loop a e = .ok e₁) :
    evolve_loop (a + b) e = evolve_loop b e₁ := by
  rw [evolve_loop_add, h]

/-- If the lookup table raises (out-of-range rule number) and the
configuration is nonempty, the first cell of the first step propagates the
error. -/
lemma evolve_step_err (e : Engine) (s : String) (hs : lookup_table e = .error s)
    (hL : 1 ≤ e._length) : evolve_step e = .error s := by
  obtain ⟨m, hm⟩ : ∃ m, e._length = m + 1 := ⟨e._length - 1, by omega⟩
  unfold evolve_step
  rw [hm, List.range_succ_eq_map, List.mapM_cons, hs]
  rfl

lemma next_config_zero (cur : List ℤ) : next_config 0 cur = List.replicate cur.length 0 := by
  apply List.eq_replicate_iff.mpr
  refine ⟨next_config_length 0 cur, ?_⟩
  intro b hb
  unfold next_config at hb
  rw [List.mem_map] at hb
  obtain ⟨i, -, hib⟩ := hb
  rw [← hib]
  norm_num [dgt]

/-- C1: on a validly constructed engine with a nonempty configuration of
length L, a single evolve step succeeds, producing a configuration of
length L whose cell i is the cached lookup-table output for the
neighborhood (current[(i - 1) mod L], current[i]) of the prior
configuration (circular wraparound), all cells read from the same prior
configuration; the new configuration becomes current and is appended to
the spacetime history. -/
theorem c1_evolve_single_step (e : Engine) (L : ℕ)
    (hr0 : 0 ≤ e.rulen) (hr1 : e.rulen ≤ 3 ^ 9 - 1)
    (hv : valid_config e.current_configuration)
    (hL : e._length = L) (hLc : e.current_configuration.length = L) (h1 : 1 ≤ L) :
    ∃ newc : List ℤ,
      evolve_step e = .ok { e with
        current_configuration := newc,
        spacetime := e.spacetime ++ [newc] } ∧
      newc.length = L ∧
      ∀ i, i < L →
        dict_get (lookup_table_of e.rulen.toNat)
            (e.current_configuration.getD ((((i : ℤ) - 1) % (L : ℤ)).toNat) 0,
              e.current_configuration.getD i 0) =
          .ok (newc.getD i 0) := by
  refine ⟨next_config e.rulen.toNat e.current_configuration,
    evolve_step_ok e hr0 hr1 hv (hL.trans hLc.symm), ?_, ?_⟩
  · rw [next_config_length, hLc]
  · intro i hi
    have hi2 : i < e.current_configuration.length := by omega
    rw [next_config_getD _ _ i hi2, ← pyget_left_eq_emod _ L i hLc hi, ← pyget_natCast]
    exact dict_get_lookup _ (rulen_toNat_lt e hr0 hr1) _ _
      (hv _ (pyget_mem _ i hi2).1) (hv _ (pyget_mem _ i hi2).2)

/-- Witness for C1: the concrete engine with rule 5 and configuration
[1, 2]. -/
theorem c1_witness :
    ∃ newc : List ℤ,
      evolve_step ⟨5, [1, 2], [[1, 2]], [1, 2], 2⟩ =
        .ok ⟨5, [1, 2], [[1, 2]] ++ [newc], newc, 2⟩ ∧
      newc.length = 2 ∧
      ∀ i : ℕ, i < 2 →
        dict_get (lookup_table_of 5)
            (([1, 2] : List ℤ).getD ((((i : ℤ) - 1) % ((2 : ℕ) : ℤ)).toNat) 0,
              ([1, 2] : List ℤ).getD i 0) =
          .ok (newc.getD i 0) :=
  c1_evolve_single_step ⟨5, [1, 2], [[1, 2]], [1, 2], 2⟩ 2 (by decide) (by decide)
    (by decide) rfl rfl (by decide)

/-- C2: for a rule number in range, the lookup-table method returns a
table of exactly 9 entries whose i-th key is the i-th (left, self) pair in
left-major lexicographic order (i / 3, i mod 3), whose i-th value is the
i-th digit of the reversed zero-padded 9-digit base-3 representation of
the rule number (equal to the i-th least significant base-3 digit), with
every output in [0, 2]. -/
theorem c2_lookup_table_structure (e : Engine) (h0 : 0 ≤ e.rulen) (h1 : e.rulen ≤ 3 ^ 9 - 1) :
    ∃ T, lookup_table e = .ok T ∧
      T.length = 9 ∧
      (∀ i, i < 9 →
        T.getD i ((0, 0), 0) =
          ((((i / 3 : ℕ) : ℤ), ((i % 3 : ℕ) : ℤ)), ((dgt e.rulen.toNat i : ℕ) : ℤ))) ∧
      (rule_ternary e.rulen.toNat).length = 9 ∧
      (∀ i, i < 9 → (rule_ternary e.rulen.toNat).reverse.getD i 0 = e.rulen.toNat / 3 ^ i % 3) ∧
      (∀ p ∈ T, 0 ≤ p.2 ∧ p.2 ≤ 2) := by
  have hr : e.rulen.toNat < 3 ^ 9 := rulen_toNat_lt e h0 h1
  have hT := lookup_table_of_eq e.rulen.toNat hr
  refine ⟨_, lookup_table_ok e h0 h1, ?_, ?_, rule_ternary_length _ hr,
    fun i _ => rule_ternary_rev_getD _ hr i, ?_⟩
  · rw [hT]
    rfl
  · intro i hi
    rw [hT]
    interval_cases i <;> rfl
  · intro p hp
    rw [hT] at hp
    simp only [List.mem_cons, List.not_mem_nil, or_false] at hp
    rcases hp with rfl | rfl | rfl | rfl | rfl | rfl | rfl | rfl | rfl <;> dsimp only <;>
      exact ⟨Int.natCast_nonneg _, by exact_mod_cast Nat.lt_succ_iff.mp (dgt_lt _ _)⟩

/-- Witness for C2 at the concrete rule number 100. -/
theorem c2_witness :
    ∃ T, lookup_table ⟨100, [], [[]], [], 0⟩ = .ok T ∧
      T.length = 9 ∧
      (∀ i, i < 9 →
        T.getD i ((0, 0), 0) =
          ((((i / 3 : ℕ) : ℤ), ((i % 3 : ℕ) : ℤ)), ((dgt 100 i : ℕ) : ℤ))) ∧
      (rule_ternary 100).length = 9 ∧
      (∀ i, i < 9 → (rule_ternary 100).reverse.getD i 0 = 100 / 3 ^ i % 3) ∧
      (∀ p ∈ T, 0 ≤ p.2 ∧ p.2 ≤ 2) :=
  c2_lookup_table_structure ⟨100, [], [[]], [], 0⟩ (by decide) (by decide)

/-- C3: after construction and any sequence of successful evolve calls,
the history length is 1 plus the total steps evolved, entry 0 is the
initial configuration, earlier histories are prefixes of later ones
(entries are never modified or removed), the current configuration is the
last history entry, and evolve(0) returns the engine unchanged. -/
theorem c3_history_invariants (r : ℤ) (init : List ℤ) (ts : List ℕ) (e₀ e : Engine)
    (h0 : mk r init = .ok e₀) (h : evolve_calls ts e₀ = .ok e) :
    e.spacetime.length = 1 + ts.sum ∧
    e.spacetime.getD 0 [] = init ∧
    e.spacetime.getLast? = some e.current_configuration ∧
    (∀ ts₁ ts₂ : List ℕ, ts = ts₁ ++ ts₂ → ∀ e₁, evolve_calls ts₁ e₀ = .ok e₁ →
      ∃ rest, e.spacetime = e₁.spacetime ++ rest) ∧
    (evolve e₀ 0 = .ok e₀ ∧ e₀.spacetime = [init] ∧ e₀.current_configuration = init) := by
  obtain ⟨he₀, hv⟩ := mk_ok r init e₀ h0
  subst he₀
  rw [evolve_calls_eq_loop] at h
  obtain ⟨rest, hrest, hlen⟩ := evolve_loop_spacetime _ _ _ h
  refine ⟨?_, ?_, ?_, ?_, ?_, rfl, rfl⟩
  · rw [hrest, List.length_append, hlen]
    rfl
  · rw [hrest]
    rfl
  · exact evolve_loop_last ts.sum ⟨r, init, [init], init, init.length⟩ e rfl h
  · intro ts₁ ts₂ hsplit e₁ h₁
    rw [evolve_calls_eq_loop] at h₁
    subst hsplit
    rw [List.sum_append, evolve_loop_add_ok _ _ _ _ h₁] at h
    obtain ⟨rest₂, hrest₂, -⟩ := evolve_loop_spacetime _ _ _ h
    exact ⟨rest₂, hrest₂⟩
  · unfold evolve
    rw [if_neg (lt_irrefl (0 : ℚ)), Int.floor_zero]
    rfl

/-- Witness for C3: the empty configuration under rule 0 evolved by the
call sequence [1, 2]. -/
theorem c3_witness :
    (⟨0, [], [[], [], [], []], [], 0⟩ : Engine).spacetime.length = 1 + ([1, 2] : List ℕ).sum ∧
    (⟨0, [], [[], [], [], []], [], 0⟩ : Engine).spacetime.getD 0 [] = [] ∧
    (⟨0, [], [[], [], [], []], [], 0⟩ : Engine).spacetime.getLast? =
      some (⟨0, [], [[], [], [], []], [], 0⟩ : Engine).current_configuration ∧
    (∀ ts₁ ts₂ : List ℕ, [1, 2] = ts₁ ++ ts₂ →
      ∀ e₁, evolve_calls ts₁ ⟨0, [], [[]], [], 0⟩ = .ok e₁ →
      ∃ rest, (⟨0, [], [[], [], [], []], [], 0⟩ : Engine).spacetime =
        e₁.spacetime ++ rest) ∧
    (evolve ⟨0, [], [[]], [], 0⟩ 0 = .ok ⟨0, [], [[]], [], 0⟩ ∧
      (⟨0, [], [[]], [], 0⟩ : Engine).spacetime = [[]] ∧
      (⟨0, [], [[]], [], 0⟩ : Engine).current_configuration = []) :=
  c3_history_invariants 0 [] [1, 2] ⟨0, [], [[]], [], 0⟩ ⟨0, [], [[], [], [], []], [], 0⟩
    (by decide) (by rw [evolve_calls_eq_loop]; decide)

/-- C4 counterexample: constructing an engine with rule number 3 to the 9,
exactly one past the maximum, succeeds; no error is raised at
construction time, contrary to the claim of eager fail-fast validation. -/
theorem c4_counterexample :
    mk 19683 [0] = .ok ⟨19683, [0], [[0]], [0], 1⟩ := by decide

/-- C4 (amended): the rule number is validated lazily.  Construction with
an out-of-range rule number succeeds; the InvalidArgument (ValueError)
surfaces on the first evolve call that takes at least one step on a
nonempty configuration, when the lookup table is first built. -/
theorem c4_lazy_validation (r : ℤ) (init : List ℤ) (e₀ : Engine) (t : ℕ)
    (hout : r < 0 ∨ r > 3 ^ 9 - 1) (h0 : mk r init = .ok e₀)
    (hL : 1 ≤ init.length) (ht : 1 ≤ t) :
    evolve e₀ (t : ℚ) =
      .error "rule_number must be an int between 0 and 3**9-1, inclusive" := by
  obtain ⟨he₀, hv⟩ := mk_ok r init e₀ h0
  subst he₀
  rw [evolve_natCast]
  obtain ⟨k, hk⟩ : ∃ k, t = k + 1 := ⟨t - 1, by omega⟩
  subst hk
  rw [evolve_loop_succ, evolve_step_err _ _ ?hs ?hl]
  case hs =>
    unfold lookup_table
    rw [if_pos hout]
  case hl => exact hL

/-- Witness for C4 (amended) at rule number 19683 with configuration [0]. -/
theorem c4_amended_witness :
    evolve ⟨19683, [0], [[0]], [0], 1⟩ ((1 : ℕ) : ℚ) =
      .error "rule_number must be an int between 0 and 3**9-1, inclusive" :=
  c4_lazy_validation 19683 [0] ⟨19683, [0], [[0]], [0], 1⟩ 1 (by decide) (by decide)
    (by decide) (by decide)

/-- C5 counterexample: evolve with the non-integer argument 2.7 does not
raise any error; it silently truncates to 2 steps (here rule 0 sends [1]
to [0] and then [0] to [0], and two configurations are appended). -/
theorem c5_counterexample :
    evolve ⟨0, [1], [[1]], [1], 1⟩ (27 / 10) = .ok ⟨0, [1], [[1], [0], [0]], [0], 1⟩ := by
  unfold evolve
  rw [if_neg (by norm_num), show ⌊(27 / 10 : ℚ)⌋ = 2 from by norm_num]
  decide

/-- C5 (amended): a negative timeSteps argument fails with ValueError,
but a non-integer non-negative argument is not rejected: int() silently
truncates it toward zero and evolve runs floor(timeSteps) steps. -/
theorem c5_negative_rejected_nonint_truncated (e : Engine) (q : ℚ) :
    (q < 0 → evolve e q = .error "time_steps must be a non-negative integer") ∧
    (0 ≤ q → ∀ n : ℕ, (n : ℚ) ≤ q → q < (n : ℚ) + 1 → evolve e q = evolve_loop n e) := by
  constructor
  · intro hq
    unfold evolve
    rw [if_pos hq]
  · intro hq n hn1 hn2
    unfold evolve
    rw [if_neg (not_lt.mpr hq)]
    have hf : ⌊q⌋ = (n : ℤ) := by
      rw [Int.floor_eq_iff]
      constructor
      · exact_mod_cast hn1
      · push_cast
        exact hn2
    rw [hf, Int.toNat_natCast]

/-- Witness for C5 (amended): 2.7 truncates to exactly 2 steps. -/
theorem c5_amended_witness :
    evolve ⟨0, [1], [[1]], [1], 1⟩ (27 / 10) = evolve_loop 2 ⟨0, [1], [[1]], [1], 1⟩ :=
  (c5_negative_rejected_nonint_truncated ⟨0, [1], [[1]], [1], 1⟩ (27 / 10)).2
    (by norm_num) 2 (by norm_num) (by norm_num)

/-- C7: constructing with the empty configuration succeeds and evolve(t)
succeeds for every t, appending exactly t empty configurations (no
indexing or modulo error is possible since the cell loop body never
runs). -/
theorem c7_empty_configuration (r : ℤ) (t : ℕ) :
    ∃ e₀ e : Engine, mk r [] = .ok e₀ ∧ evolve e₀ (t : ℚ) = .ok e ∧
      e.spacetime = List.replicate (t + 1) [] ∧
      e.current_configuration = [] ∧
      e.spacetime.length = 1 + t := by
  refine ⟨⟨r, [], [[]], [], 0⟩, ⟨r, [], List.replicate (t + 1) [], [], 0⟩,
    mk_valid r [] (fun x hx => absurd hx (List.not_mem_nil x)), ?_, rfl, rfl, ?_⟩
  · rw [evolve_natCast, evolve_loop_empty t ⟨r, [], [[]], [], 0⟩ rfl rfl]
    rfl
  · rw [List.length_replicate]
    omega

/-- C9: under rule number 0 every one of the 9 neighborhoods maps to
output 0, and one evolve step on any valid configuration yields the
all-zero configuration of the same length. -/
theorem c9_rule_zero (init : List ℤ) (e₀ : Engine) (hv : valid_config init)
    (h0 : mk 0 init = .ok e₀) :
    (∀ p ∈ lookup_table_of 0, p.2 = 0) ∧
    (lookup_table_of 0).length = 9 ∧
    ∃ e, evolve e₀ 1 = .ok e ∧
      e.current_configuration = List.replicate init.length 0 ∧
      e.current_configuration.length = init.length := by
  refine ⟨by decide, by decide, ?_⟩
  obtain ⟨he₀, -⟩ := mk_ok 0 init e₀ h0
  subst he₀
  have hstep := evolve_step_ok ⟨0, init, [init], init, init.length⟩
    (by norm_num) (by norm_num) hv rfl
  have h1 : evolve (⟨0, init, [init], init, init.length⟩ : Engine) 1 =
      evolve_loop 1 ⟨0, init, [init], init, init.length⟩ := by
    unfold evolve
    rw [if_neg (by norm_num), Int.floor_one]
    rfl
  refine ⟨⟨0, init, [init] ++ [next_config 0 init], next_config 0 init, init.length⟩,
    ?_, ?_, ?_⟩
  · rw [h1, evolve_loop_succ, hstep]
    rfl
  · exact next_config_zero init
  · exact next_config_length 0 init

/-- Witness for C9 at the concrete configuration [1, 2, 0]. -/
theorem c9_witness :
    (∀ p ∈ lookup_table_of 0, p.2 = 0) ∧
    (lookup_table_of 0).length = 9 ∧
    ∃ e, evolve ⟨0, [1, 2, 0], [[1, 2, 0]], [1, 2, 0], 3⟩ 1 = .ok e ∧
      e.current_configuration = List.replicate 3 0 ∧
      e.current_configuration.length = 3 :=
  c9_rule_zero [1, 2, 0] ⟨0, [1, 2, 0], [[1, 2, 0]], [1, 2, 0], 3⟩ (by decide) (by decide)

/-- C10: evolution is additive over step counts: evolve(a) followed by
evolve(b) reaches exactly the engine state (current configuration and
history) that a single evolve(a + b) reaches. -/
theorem c10_evolve_additive (r : ℤ) (init : List ℤ) (e₀ : Engine) (a b : ℕ)
    (hr0 : 0 ≤ r) (hr1 : r ≤ 3 ^ 9 - 1) (h0 : mk r init = .ok e₀) :
    ∃ e₁ e₂, evolve e₀ (a : ℚ) = .ok e₁ ∧ evolve e₁ (b : ℚ) = .ok e₂ ∧
      evolve e₀ ((a : ℚ) + (b : ℚ)) = .ok e₂ := by
  obtain ⟨he₀, hv⟩ := mk_ok r init e₀ h0
  have hinv : engine_inv e₀ := by
    subst he₀
    exact ⟨hr0, hr1, hv, rfl⟩
  obtain ⟨e₁, h₁, hinv₁⟩ := evolve_loop_inv a e₀ hinv
  obtain ⟨e₂, h₂, -⟩ := evolve_loop_inv b e₁ hinv₁
  refine ⟨e₁, e₂, ?_, ?_, ?_⟩
  · rw [evolve_natCast]
    exact h₁
  · rw [evolve_natCast]
    exact h₂
  · rw [show ((a : ℚ) + (b : ℚ)) = ((a + b : ℕ) : ℚ) from by push_cast; ring,
      evolve_natCast, evolve_loop_add_ok a b e₀ e₁ h₁]
    exact h₂

/-- Witness for C10 with rule 0, configuration [0], a = 1, b = 2. -/
theorem c10_witness :
    ∃ e₁ e₂, evolve ⟨0, [0], [[0]], [0], 1⟩ ((1 : ℕ) : ℚ) = .ok e₁ ∧
      evolve e₁ ((2 : ℕ) : ℚ) = .ok e₂ ∧
      evolve ⟨0, [0], [[0]], [0], 1⟩ (((1 : ℕ) : ℚ) + ((2 : ℕ) : ℚ)) = .ok e₂ :=
  c10_evolve_additive 0 [0] ⟨0, [0], [[0]], [0], 1⟩ 1 2 (by norm_num) (by norm_num)
    (by decide)

end ThreeState

namespace Bayesian

/-- C6: for every iteration count, every initial value greater than 1 and
every data sequence, the chain returns exactly iterations samples, every
sample is strictly greater than 1, and a proposed candidate not exceeding
1 is always rejected with the current value retained. -/
theorem c6_chain_invariant (iterations : ℕ) (initial_a : ℝ) (data : List ℝ)
    (noise unif : ℕ → ℝ) (h : 1 < initial_a) :
    (metropolis_hastings iterations initial_a data noise unif).length = iterations ∧
    (∀ x ∈ metropolis_hastings iterations initial_a data noise unif, 1 < x) ∧
    (∀ (sq : ℝ) (len : ℕ) (a nz u : ℝ), nz + a ≤ 1 → mh_step sq len a nz u = a) := by
  refine ⟨mh_chain_length _ _ _ _ 0 iterations _,
    mh_chain_gt_one _ _ _ _ 0 iterations _ h, ?_⟩
  intro sq len a nz u hle
  unfold mh_step
  dsimp only
  rw [if_pos hle]

/-- Witness for C6 at a three-iteration chain started at 2. -/
theorem c6_witness :
    (1 : ℝ) < 2 ∧
      ((metropolis_hastings 3 2 [] (fun _ => 0) (fun _ => 0)).length = 3 ∧
       (∀ x ∈ metropolis_hastings 3 2 [] (fun _ => 0) (fun _ => 0), 1 < x) ∧
       (∀ (sq : ℝ) (len : ℕ) (a nz u : ℝ), nz + a ≤ 1 → mh_step sq len a nz u = a)) :=
  ⟨by norm_num, c6_chain_invariant 3 2 [] (fun _ => 0) (fun _ => 0) (by norm_num)⟩

/-- C8: when the chain is started above 1, every first argument ever
passed to the unnormalized posterior post_a_x during the run is strictly
greater than 1: the DomainUndefined path is unreachable. -/
theorem c8_posterior_calls_gt_one (iterations : ℕ) (initial_a : ℝ) (data : List ℝ)
    (noise unif : ℕ → ℝ) (h : 1 < initial_a) :
    ∀ x ∈ metropolis_hastings_calls iterations initial_a data noise unif, 1 < x :=
  mh_calls_gt_one _ _ noise unif 0 iterations initial_a h

/-- Witness for C8 at a three-iteration chain started at 2. -/
theorem c8_witness :
    (1 : ℝ) < 2 ∧
      ∀ x ∈ metropolis_hastings_calls 3 2 [] (fun _ => 0) (fun _ => 0), 1 < x :=
  ⟨by norm_num, c8_posterior_calls_gt_one 3 2 [] (fun _ => 0) (fun _ => 0) (by norm_num)⟩

end Bayesian

namespace ThreeState

example : digits3L 5 5 = [2, 1] := by decide
example : base_repr3 0 = [0] := by decide
example : rule_ternary 5 = [0, 0, 0, 0, 0, 0, 0, 1, 2] := by decide
example : (lookup_table_of 5).length = 9 := by decide
example : dict_get (lookup_table_of 5) (0, 1) = .ok 1 := by decide
example : dict_get (lookup_table_of 5) (0, 0) = .ok 2 := by decide
example : dict_get (lookup_table_of 5) (1, 0) = .ok 0 := by decide
example : mk 0 [0, 3] = .error "initial condition must be a list of 0s, 1s and 2s" := by decide
example :
    evolve_loop 1 ⟨5, [1], [[1]], [1], 1⟩ = .ok ⟨5, [1], [[1], [0]], [0], 1⟩ := by decide

end ThreeState
